import Mathlib

/-!
Verification of the group-membership reconciliation core of
`terraform-provider-gsuite` (`gsuite/resource_group_members.go`).

The Go code is embedded shallowly:

* the Google directory client (`config.directory.Members.{List,Insert,Delete}`)
  becomes an `Adapter σ`, a record of three state-threading operations over an
  abstract remote-state type `σ`;
* every adapter invocation is recorded in an explicit trace of `Call`s so that
  theorems can speak about which remote operations were issued and how often;
* Go's `map[string]struct{}` (used by `reconcileMembers` to turn member slices
  into sets) becomes `List.dedup`; Go's `delete(m, k)` becomes `List.erase`;
* `*schema.ResourceData` becomes the `ResourceData` structure holding the id,
  the group field and the three per-role member lists;
* `error` return values become `Option String` (`none` = success), and the
  `fmt.Errorf` wrappers are kept as literal string prefixes.
-/

namespace GSuite

/-- One record returned by the directory listing API
(`directory.Member`, restricted to the fields the code reads). -/
structure Member where
  email : String
  role : String
deriving DecidableEq, Repr

/-- A single call issued to the directory adapter. -/
inductive Call where
  | list (gid role : String)
  | insert (gid email role : String)
  | delete (gid email : String)
deriving DecidableEq, Repr

/-- The directory client adapter: `Members.List`, `Members.Insert`,
`Members.Delete`, each a blocking call that may fail and may change the
remote state `σ`. -/
structure Adapter (σ : Type) where
  list : String → String → σ → Except String (List Member) × σ
  insert : String → String → String → σ → Option String × σ
  delete : String → String → σ → Option String × σ

/-- Result of `getApiMembers`: the fetched member emails (or the listing
error), the remote state afterwards, and the adapter calls issued. -/
structure FetchResult (σ : Type) where
  res : Except String (List String)
  s : σ
  calls : List Call
deriving Repr

/-- Result of `addMember` / `deleteMember`: an optional error, the remote
state afterwards, and the adapter calls issued. -/
structure StepResult (σ : Type) where
  res : Option String
  s : σ
  calls : List Call
deriving DecidableEq, Repr

/-- Result of the first `reconcileMembers` loop (over `apiMap`): the calls
issued, an optional error, the remaining `cfgMap`, and the state. -/
structure Loop1Result (σ : Type) where
  calls : List Call
  res : Option String
  cfg : List String
  s : σ
deriving DecidableEq, Repr

/-- Result of `reconcileMembers` (and of its second loop): the calls issued,
an optional error, and the state. -/
structure ReconResult (σ : Type) where
  calls : List Call
  res : Option String
  s : σ
deriving DecidableEq, Repr

/-- The Terraform resource data the code touches: the resource id
(`d.Id()`/`d.SetId`), the `group` field, and the three role member lists. -/
structure ResourceData where
  id : String
  group : String
  owners : List String
  managers : List String
  members : List String
deriving DecidableEq, Repr

/-- Result of a lifecycle operation: the resource data afterwards, the remote
state, the adapter calls issued, and an optional error. -/
structure OpResult (σ : Type) where
  d : ResourceData
  s : σ
  calls : List Call
  res : Option String
deriving DecidableEq, Repr

/-- Result of the per-role loop inside Create/Update. -/
structure LoopResult (σ : Type) where
  calls : List Call
  res : Option String
  s : σ
deriving DecidableEq, Repr

/-- `rolesMap`: the fixed role → schema-field mapping. Go iterates the map in
unspecified order; the embedding fixes one enumeration of its entries. -/
def rolesMap : List (String × String) :=
  [("MANAGER", "managers"), ("MEMBER", "members"), ("OWNER", "owners")]

/-- `resourceRoleMembers(d, key)`: read the member list stored under a
schema field. -/
def resourceRoleMembers (d : ResourceData) (key : String) : List String :=
  if key = "managers" then d.managers
  else if key = "members" then d.members
  else if key = "owners" then d.owners
  else []

/-- `d.Set(key, v)` for the three role fields. -/
def setRoleField (d : ResourceData) (key : String) (v : List String) : ResourceData :=
  if key = "managers" then { d with managers := v }
  else if key = "members" then { d with members := v }
  else if key = "owners" then { d with owners := v }
  else d

/-- The collection loop of `getApiMembers`: keep `member.Email` exactly when
`member.Role == role`. -/
def collectMembers (role : String) : List Member → List String
  | [] => []
  | m :: rest =>
    if m.role = role then m.email :: collectMembers role rest
    else collectMembers role rest

/-- `getApiMembers(gid, role, config)`: list the group's members, propagate a
listing error, and defensively keep only records whose role matches. -/
def getApiMembers {σ : Type} (gid role : String) (A : Adapter σ) (s : σ) :
    FetchResult σ :=
  match A.list gid role s with
  | (Except.error e, s') => ⟨Except.error e, s', [Call.list gid role]⟩
  | (Except.ok ms, s') => ⟨Except.ok (collectMembers role ms), s', [Call.list gid role]⟩

/-- `addMember(m, gid, role, config)`: insert the member; on failure wrap the
adapter error as `Error creating groupMember: <err>`. -/
def addMember {σ : Type} (m gid role : String) (A : Adapter σ) (s : σ) :
    StepResult σ :=
  match A.insert gid m role s with
  | (some e, s') => ⟨some ("Error creating groupMember: " ++ e), s', [Call.insert gid m role]⟩
  | (none, s') => ⟨none, s', [Call.insert gid m role]⟩

/-- `deleteMember(m, gid, config)`: remove the member; on failure wrap the
adapter error as `Error deleting group: <err>`. -/
def deleteMember {σ : Type} (m gid : String) (A : Adapter σ) (s : σ) :
    StepResult σ :=
  match A.delete gid m s with
  | (some e, s') => ⟨some ("Error deleting group: " ++ e), s', [Call.delete gid m]⟩
  | (none, s') => ⟨none, s', [Call.delete gid m]⟩

/-- First loop of `reconcileMembers`: iterate the keys of `apiMap`; a key not
in `cfgMap` is removed remotely (fail-fast on error), a key present in both
is deleted from `cfgMap`. -/
def reconLoop1 {σ : Type} (A : Adapter σ) (gid : String) :
    List String → List String → σ → Loop1Result σ
  | [], cfgMap, s => ⟨[], none, cfgMap, s⟩
  | k :: rest, cfgMap, s =>
    if k ∈ cfgMap then
      reconLoop1 A gid rest (cfgMap.erase k) s
    else
      let step := deleteMember k gid A s
      match step.res with
      | some e => ⟨step.calls, some e, cfgMap, step.s⟩
      | none =>
        let r := reconLoop1 A gid rest cfgMap step.s
        ⟨step.calls ++ r.calls, r.res, r.cfg, r.s⟩

/-- Second loop of `reconcileMembers`: add every key left in `cfgMap`
(fail-fast on error). -/
def reconLoop2 {σ : Type} (A : Adapter σ) (gid role : String) :
    List String → σ → ReconResult σ
  | [], s => ⟨[], none, s⟩
  | k :: rest, s =>
    let step := addMember k gid role A s
    match step.res with
    | some e => ⟨step.calls, some e, step.s⟩
    | none =>
      let r := reconLoop2 A gid role rest step.s
      ⟨step.calls ++ r.calls, r.res, r.s⟩

/-- `reconcileMembers(cfgMembers, apiMembers, config, gid, role)`: convert
both slices to sets, remove undesired members, then add missing ones. -/
def reconcileMembers {σ : Type} (cfgMembers apiMembers : List String)
    (A : Adapter σ) (gid role : String) (s : σ) : ReconResult σ :=
  let cfgMap := cfgMembers.dedup
  let apiMap := apiMembers.dedup
  let r1 := reconLoop1 A gid apiMap cfgMap s
  match r1.res with
  | some e => ⟨r1.calls, some e, r1.s⟩
  | none =>
    let r2 := reconLoop2 A gid role r1.cfg r1.s
    ⟨r1.calls ++ r2.calls, r2.res, r2.s⟩

/-- The per-role loop of `resourceGroupMembersRead`: fetch each role's
members and store them under the role's schema field. -/
def readLoop {σ : Type} (A : Adapter σ) (gid : String) :
    List (String × String) → ResourceData → σ → OpResult σ
  | [], d, s => ⟨d, s, [], none⟩
  | (role, key) :: rest, d, s =>
    let f := getApiMembers gid role A s
    match f.res with
    | Except.error e => ⟨d, f.s, f.calls, some e⟩
    | Except.ok ms =>
      let r := readLoop A gid rest (setRoleField d key ms) f.s
      ⟨r.d, r.s, f.calls ++ r.calls, r.res⟩

/-- `resourceGroupMembersRead`: populate every role field from the API, then
set the `group` field from the id. -/
def resourceGroupMembersRead {σ : Type} (d : ResourceData) (A : Adapter σ)
    (s : σ) : OpResult σ :=
  let r := readLoop A d.id rolesMap d s
  match r.res with
  | some e => ⟨r.d, r.s, r.calls, some e⟩
  | none => ⟨{ r.d with group := r.d.id }, r.s, r.calls, none⟩

/-- The per-role loop of `resourceGroupMembersCreate`: fetch the role's
actual members and reconcile them against the configured members, wrapping
any error as `Error adding members: <err>`. -/
def createLoop {σ : Type} (A : Adapter σ) (gid : String) (d : ResourceData) :
    List (String × String) → σ → LoopResult σ
  | [], s => ⟨[], none, s⟩
  | (role, key) :: rest, s =>
    let cfgMembers := resourceRoleMembers d key
    let f := getApiMembers gid role A s
    match f.res with
    | Except.error e => ⟨f.calls, some ("Error adding members: " ++ e), f.s⟩
    | Except.ok apiMembers =>
      let r := reconcileMembers cfgMembers apiMembers A gid role f.s
      match r.res with
      | some e => ⟨f.calls ++ r.calls, some ("Error adding members: " ++ e), r.s⟩
      | none =>
        let next := createLoop A gid d rest r.s
        ⟨f.calls ++ r.calls ++ next.calls, next.res, next.s⟩

/-- `resourceGroupMembersCreate`: reconcile every role, then set the id to
the group and read back. -/
def resourceGroupMembersCreate {σ : Type} (d : ResourceData) (A : Adapter σ)
    (s : σ) : OpResult σ :=
  let gid := d.group
  let L := createLoop A gid d rolesMap s
  match L.res with
  | some e => ⟨d, L.s, L.calls, some e⟩
  | none =>
    let d1 := { d with id := gid }
    let R := resourceGroupMembersRead d1 A L.s
    ⟨R.d, R.s, L.calls ++ R.calls, R.res⟩

/-- The per-role loop of `resourceGroupMembersUpdate`: identical control flow
to `createLoop`, wrapping errors as `Error updating memberships: <err>`. -/
def updateLoop {σ : Type} (A : Adapter σ) (gid : String) (d : ResourceData) :
    List (String × String) → σ → LoopResult σ
  | [], s => ⟨[], none, s⟩
  | (role, key) :: rest, s =>
    let cfgMembers := resourceRoleMembers d key
    let f := getApiMembers gid role A s
    match f.res with
    | Except.error e => ⟨f.calls, some ("Error updating memberships: " ++ e), f.s⟩
    | Except.ok apiMembers =>
      let r := reconcileMembers cfgMembers apiMembers A gid role f.s
      match r.res with
      | some e => ⟨f.calls ++ r.calls, some ("Error updating memberships: " ++ e), r.s⟩
      | none =>
        let next := updateLoop A gid d rest r.s
        ⟨f.calls ++ r.calls ++ next.calls, next.res, next.s⟩

/-- `resourceGroupMembersUpdate`: reconcile every role, then read back
(without touching the id). -/
def resourceGroupMembersUpdate {σ : Type} (d : ResourceData) (A : Adapter σ)
    (s : σ) : OpResult σ :=
  let gid := d.group
  let L := updateLoop A gid d rolesMap s
  match L.res with
  | some e => ⟨d, L.s, L.calls, some e⟩
  | none =>
    let R := resourceGroupMembersRead d A L.s
    ⟨R.d, R.s, L.calls ++ R.calls, R.res⟩

/-- Inner loop of `resourceGroupMembersDelete`: remove every listed member,
discarding each call's error. -/
def deleteAll {σ : Type} (A : Adapter σ) (gid : String) :
    List String → σ → σ × List Call
  | [], s => (s, [])
  | m :: rest, s =>
    let step := deleteMember m gid A s
    let r := deleteAll A gid rest step.s
    (r.1, step.calls ++ r.2)

/-- Outer loop of `resourceGroupMembersDelete`: for every role, remove every
member recorded in state under that role. -/
def deleteLoop {σ : Type} (A : Adapter σ) (d : ResourceData) :
    List (String × String) → σ → σ × List Call
  | [], s => (s, [])
  | (_, key) :: rest, s =>
    let ms := resourceRoleMembers d key
    let r := deleteAll A d.id ms s
    let r' := deleteLoop A d rest r.1
    (r'.1, r.2 ++ r'.2)

/-- `resourceGroupMembersDelete`: best-effort removal of every recorded
member, then clear the id; always returns success. -/
def resourceGroupMembersDelete {σ : Type} (d : ResourceData) (A : Adapter σ)
    (s : σ) : OpResult σ :=
  let r := deleteLoop A d rolesMap s
  ⟨{ d with id := "" }, r.1, r.2, none⟩

/-! ### Concrete adapters used to instantiate the theorems -/

/-- Modelled from the spec: a remote service on which every call succeeds and
nothing is stored; used to witness the always-successful-adapter theorems. -/
def okAdapter : Adapter Unit where
  list := fun _ _ s => (Except.ok [], s)
  insert := fun _ _ _ s => (none, s)
  delete := fun _ _ s => (none, s)

/-- Modelled from the spec: a remote service whose removal operation always
fails with the transport error `delboom`. -/
def failDeleteAdapter : Adapter Unit where
  list := fun _ _ s => (Except.ok [], s)
  insert := fun _ _ _ s => (none, s)
  delete := fun _ _ s => (some "delboom", s)

/-- Modelled from the spec: a remote service whose insertion operation always
fails with the transport error `boom`. -/
def failInsertAdapter : Adapter Unit where
  list := fun _ _ s => (Except.ok [], s)
  insert := fun _ _ _ s => (some "boom", s)
  delete := fun _ _ s => (none, s)

/-- Modelled from the spec: a remote service whose listing operation always
fails with the transport error `listboom`. -/
def failListAdapter : Adapter Unit where
  list := fun _ _ s => (Except.error "listboom", s)
  insert := fun _ _ _ s => (none, s)
  delete := fun _ _ s => (none, s)

/-- Modelled from the spec: a remote service whose listing returns records of
mixed roles for a group, to exercise the defensive role re-check. -/
def mixAdapter : Adapter Unit where
  list := fun _ _ s => (Except.ok [⟨"a", "OWNER"⟩, ⟨"b", "MEMBER"⟩], s)
  insert := fun _ _ _ s => (none, s)
  delete := fun _ _ s => (none, s)

/-- Modelled from the spec: a remote service that counts listing calls and
fails from the fourth listing call on; the first three listings (one per role
during Create's reconciliation loop) succeed, the read-back listing fails. -/
def flakyListAdapter : Adapter Nat where
  list := fun _ _ n => (if n < 3 then Except.ok [] else Except.error "readboom", n + 1)
  insert := fun _ _ _ n => (none, n)
  delete := fun _ _ n => (none, n)

/-- The member records of a fake store, projected to their emails. -/
def emails (s : List Member) : List String := s.map Member.email

/-- The emails of the fake store's records holding exactly `role`. -/
def membersOf (role : String) (s : List Member) : List String :=
  (s.filter (fun m => decide (m.role = role))).map Member.email

/-- Modelled from the spec: a fake directory service backed by a list of
member records (§4.2): listing returns the group's records; inserting an
already-present member is a caller error, otherwise the record is stored
under the given role; removal deletes the member's records regardless of
role. -/
def storeAdapter : Adapter (List Member) where
  list := fun _ _ s => (Except.ok s, s)
  insert := fun _ m role s =>
    if s.any (fun x => decide (x.email = m)) then (some "member already exists", s)
    else (none, ⟨m, role⟩ :: s)
  delete := fun _ m s => (none, s.filter (fun x => decide (¬ x.email = m)))

/-- `true` exactly when `pat` occurs at the head of `l`. -/
def charsStartWith : List Char → List Char → Bool
  | _, [] => true
  | [], _ :: _ => false
  | a :: as, b :: bs => a = b && charsStartWith as bs

/-- `true` exactly when `pat` occurs contiguously somewhere in `l`. -/
def charsContain : List Char → List Char → Bool
  | [], pat => pat.isEmpty
  | a :: rest, pat => charsStartWith (a :: rest) pat || charsContain rest pat

/-- `true` exactly when `sub` occurs as a contiguous substring of `s`. -/
def containsSub (s sub : String) : Bool := charsContain s.data sub.data

/-- A resource record for the group `g` with no members configured, used to
instantiate the orchestrator theorems. -/
def sampleData : ResourceData := ⟨"", "g", [], [], []⟩

/-! ### Helper lemmas: the adapter wrappers -/

variable {σ : Type}

theorem deleteMember_calls (m gid : String) (A : Adapter σ) (s : σ) :
    (deleteMember m gid A s).calls = [Call.delete gid m] := by
  unfold deleteMember
  rcases h : A.delete gid m s with ⟨(_ | e), s'⟩ <;> simp [h]

theorem addMember_calls (m gid role : String) (A : Adapter σ) (s : σ) :
    (addMember m gid role A s).calls = [Call.insert gid m role] := by
  unfold addMember
  rcases h : A.insert gid m role s with ⟨(_ | e), s'⟩ <;> simp [h]

theorem deleteMember_ok (m gid : String) (A : Adapter σ) (s : σ)
    (h : (A.delete gid m s).1 = none) :
    deleteMember m gid A s = ⟨none, (A.delete gid m s).2, [Call.delete gid m]⟩ := by
  unfold deleteMember
  rcases h' : A.delete gid m s with ⟨(_ | e), s'⟩
  · simp [h']
  · rw [h'] at h; cases h

theorem addMember_ok (m gid role : String) (A : Adapter σ) (s : σ)
    (h : (A.insert gid m role s).1 = none) :
    addMember m gid role A s = ⟨none, (A.insert gid m role s).2, [Call.insert gid m role]⟩ := by
  unfold addMember
  rcases h' : A.insert gid m role s with ⟨(_ | e), s'⟩
  · simp [h']
  · rw [h'] at h; cases h

/-! ### Helper lemmas: the first reconciliation loop -/

theorem loop1_calls_sublist (A : Adapter σ) (gid : String) (keys cfg : List String) (s : σ) :
    (reconLoop1 A gid keys cfg s).calls.Sublist (keys.map (Call.delete gid)) := by
  induction keys generalizing cfg s with
  | nil => simp [reconLoop1]
  | cons k rest ih =>
    by_cases hk : k ∈ cfg
    · rw [reconLoop1, if_pos hk]
      exact (ih _ _).cons _
    · rw [reconLoop1, if_neg hk]
      rcases hstep : deleteMember k gid A s with ⟨res, s', calls⟩
      have hc : calls = [Call.delete gid k] := by
        have := deleteMember_calls k gid A s
        rw [hstep] at this; exact this
      subst hc
      cases res with
      | some e => simp
      | none =>
        simpa using List.Sublist.cons₂ (Call.delete gid k) (ih cfg s')

theorem loop1_cfg_nodup (A : Adapter σ) (gid : String) (keys cfg : List String) (s : σ)
    (hc : cfg.Nodup) : (reconLoop1 A gid keys cfg s).cfg.Nodup := by
  induction keys generalizing cfg s with
  | nil => simpa [reconLoop1] using hc
  | cons k rest ih =>
    by_cases hk : k ∈ cfg
    · rw [reconLoop1, if_pos hk]
      exact ih _ _ (hc.erase k)
    · rw [reconLoop1, if_neg hk]
      rcases hstep : deleteMember k gid A s with ⟨res, s', calls⟩
      cases res with
      | some e => simpa using hc
      | none => simpa using ih _ _ hc

theorem loop1_success (A : Adapter σ) (gid : String) (keys cfg : List String) (s : σ)
    (hdel : ∀ g m t, (A.delete g m t).1 = none)
    (hk : keys.Nodup) (hc : cfg.Nodup) :
    reconLoop1 A gid keys cfg s =
      ⟨(keys.filter (fun k => decide (k ∉ cfg))).map (Call.delete gid), none,
       cfg.filter (fun c => decide (c ∉ keys)),
       (keys.filter (fun k => decide (k ∉ cfg))).foldl (fun t k => (A.delete gid k t).2) s⟩ := by
  induction keys generalizing cfg s with
  | nil => simp [reconLoop1]
  | cons k rest ih =>
    rcases List.nodup_cons.1 hk with ⟨hknr, hrest⟩
    by_cases hmem : k ∈ cfg
    · rw [reconLoop1, if_pos hmem, ih (cfg.erase k) s hrest (hc.erase k)]
      have hfk : (rest.filter (fun x => decide (x ∉ cfg.erase k))) =
          ((k :: rest).filter (fun x => decide (x ∉ cfg))) := by
        rw [List.filter_cons_of_neg (by simpa using hmem)]
        exact List.filter_congr fun x hx => by
          have hxk : x ≠ k := fun h => hknr (h ▸ hx)
          simp [List.mem_erase_of_ne hxk]
      have hcf : (cfg.erase k).filter (fun c => decide (c ∉ rest)) =
          cfg.filter (fun c => decide (c ∉ k :: rest)) := by
        rw [hc.erase_eq_filter k, List.filter_filter]
        exact List.filter_congr fun c _ => by
          by_cases hck : c = k
          · subst hck; simp
          · simp [hck, List.mem_cons]
      rw [hfk, hcf]
    · rw [reconLoop1, if_neg hmem]
      rw [deleteMember_ok k gid A s (hdel gid k s)]
      have hrec := ih cfg ((A.delete gid k s).2) hrest hc
      simp only [hrec]
      have hpk : ((k :: rest).filter (fun x => decide (x ∉ cfg))) =
          k :: (rest.filter (fun x => decide (x ∉ cfg))) :=
        List.filter_cons_of_pos (by simpa using hmem)
      have hcf : cfg.filter (fun c => decide (c ∉ rest)) =
          cfg.filter (fun c => decide (c ∉ k :: rest)) :=
        List.filter_congr fun c hcmem => by
          have hck : c ≠ k := fun h => hmem (h ▸ hcmem)
          simp [List.mem_cons, hck]
      rw [hpk, hcf]
      simp

theorem loop1_abort (A : Adapter σ) (gid : String) (keys cfg : List String) (s : σ) (e : String)
    (h : (reconLoop1 A gid keys cfg s).res = some e) :
    ∃ k t, k ∈ keys ∧
      (reconLoop1 A gid keys cfg s).calls.getLast? = some (Call.delete gid k) ∧
      (deleteMember k gid A t).res = some e := by
  induction keys generalizing cfg s with
  | nil => simp [reconLoop1] at h
  | cons k rest ih =>
    by_cases hk : k ∈ cfg
    · rw [reconLoop1, if_pos hk] at h ⊢
      obtain ⟨k', t, hmem, hlast, herr⟩ := ih _ _ h
      exact ⟨k', t, List.mem_cons_of_mem _ hmem, hlast, herr⟩
    · rw [reconLoop1, if_neg hk] at h ⊢
      rcases hstep : deleteMember k gid A s with ⟨res, s', calls⟩
      rw [hstep] at h
      have hcalls : calls = [Call.delete gid k] := by
        have h2 := deleteMember_calls k gid A s; rw [hstep] at h2; exact h2
      subst hcalls
      cases res with
      | some e' =>
        have he : e' = e := by simpa using h
        subst he
        exact ⟨k, s, List.mem_cons_self k rest, by simp, by rw [hstep]⟩
      | none =>
        obtain ⟨k', t, hmem, hlast, herr⟩ := ih cfg s' (by simpa using h)
        have hne : (reconLoop1 A gid rest cfg s').calls ≠ [] := by
          intro hnil; rw [hnil] at hlast; simp at hlast
        refine ⟨k', t, List.mem_cons_of_mem _ hmem, ?_, herr⟩
        show ([Call.delete gid k] ++ (reconLoop1 A gid rest cfg s').calls).getLast? =
          some (Call.delete gid k')
        rw [List.getLast?_append_of_ne_nil _ hne]
        exact hlast

/-! ### Helper lemmas: the second reconciliation loop -/

theorem loop2_calls_sublist (A : Adapter σ) (gid role : String) (keys : List String) (s : σ) :
    (reconLoop2 A gid role keys s).calls.Sublist
      (keys.map (fun k => Call.insert gid k role)) := by
  induction keys generalizing s with
  | nil => simp [reconLoop2]
  | cons k rest ih =>
    rw [reconLoop2]
    rcases hstep : addMember k gid role A s with ⟨res, s', calls⟩
    have hcalls : calls = [Call.insert gid k role] := by
      have h2 := addMember_calls k gid role A s; rw [hstep] at h2; exact h2
    subst hcalls
    cases res with
    | some e => simp
    | none => simpa using List.Sublist.cons₂ (Call.insert gid k role) (ih s')

theorem loop2_success (A : Adapter σ) (gid role : String) (keys : List String) (s : σ)
    (hins : ∀ g m r t, (A.insert g m r t).1 = none) :
    reconLoop2 A gid role keys s =
      ⟨keys.map (fun k => Call.insert gid k role), none,
       keys.foldl (fun t k => (A.insert gid k role t).2) s⟩ := by
  induction keys generalizing s with
  | nil => simp [reconLoop2]
  | cons k rest ih =>
    rw [reconLoop2, addMember_ok k gid role A s (hins gid k role s)]
    simp only [ih]
    simp

theorem loop2_abort (A : Adapter σ) (gid role : String) (keys : List String) (s : σ) (e : String)
    (h : (reconLoop2 A gid role keys s).res = some e) :
    ∃ k t, k ∈ keys ∧
      (reconLoop2 A gid role keys s).calls.getLast? = some (Call.insert gid k role) ∧
      (addMember k gid role A t).res = some e := by
  induction keys generalizing s with
  | nil => simp [reconLoop2] at h
  | cons k rest ih =>
    rw [reconLoop2] at h ⊢
    rcases hstep : addMember k gid role A s with ⟨res, s', calls⟩
    rw [hstep] at h
    have hcalls : calls = [Call.insert gid k role] := by
      have h2 := addMember_calls k gid role A s; rw [hstep] at h2; exact h2
    subst hcalls
    cases res with
    | some e' =>
      have he : e' = e := by simpa using h
      subst he
      exact ⟨k, s, List.mem_cons_self k rest, by simp, by rw [hstep]⟩
    | none =>
      obtain ⟨k', t, hmem, hlast, herr⟩ := ih s' (by simpa using h)
      have hne : (reconLoop2 A gid role rest s').calls ≠ [] := by
        intro hnil; rw [hnil] at hlast; simp at hlast
      refine ⟨k', t, List.mem_cons_of_mem _ hmem, ?_, herr⟩
      show ([Call.insert gid k role] ++ (reconLoop2 A gid role rest s').calls).getLast? =
        some (Call.insert gid k' role)
      rw [List.getLast?_append_of_ne_nil _ hne]
      exact hlast

/-! ### Helper lemmas: unfolding `reconcileMembers` -/

theorem reconcileMembers_of_loop1_err (cfg api : List String) (A : Adapter σ)
    (gid role : String) (s : σ) (e : String)
    (h : (reconLoop1 A gid api.dedup cfg.dedup s).res = some e) :
    reconcileMembers cfg api A gid role s =
      ⟨(reconLoop1 A gid api.dedup cfg.dedup s).calls, some e,
       (reconLoop1 A gid api.dedup cfg.dedup s).s⟩ := by
  unfold reconcileMembers
  simp only [h]

theorem reconcileMembers_of_loop1_ok (cfg api : List String) (A : Adapter σ)
    (gid role : String) (s : σ)
    (h : (reconLoop1 A gid api.dedup cfg.dedup s).res = none) :
    reconcileMembers cfg api A gid role s =
      ⟨(reconLoop1 A gid api.dedup cfg.dedup s).calls ++
         (reconLoop2 A gid role (reconLoop1 A gid api.dedup cfg.dedup s).cfg
           (reconLoop1 A gid api.dedup cfg.dedup s).s).calls,
       (reconLoop2 A gid role (reconLoop1 A gid api.dedup cfg.dedup s).cfg
         (reconLoop1 A gid api.dedup cfg.dedup s).s).res,
       (reconLoop2 A gid role (reconLoop1 A gid api.dedup cfg.dedup s).cfg
         (reconLoop1 A gid api.dedup cfg.dedup s).s).s⟩ := by
  unfold reconcileMembers
  simp only [h]

/-! ### Helper lemmas: the orchestrator loops -/

theorem deleteAll_calls (A : Adapter σ) (gid : String) (ms : List String) (s : σ) :
    (deleteAll A gid ms s).2 = ms.map (Call.delete gid) := by
  induction ms generalizing s with
  | nil => simp [deleteAll]
  | cons m rest ih => simp [deleteAll, deleteMember_calls, ih]

theorem mem_collectMembers (role : String) (l : List Member) (x : String) :
    x ∈ collectMembers role l ↔ ∃ m, m ∈ l ∧ m.role = role ∧ m.email = x := by
  induction l with
  | nil => simp [collectMembers]
  | cons m rest ih =>
    by_cases hm : m.role = role
    · rw [collectMembers, if_pos hm]
      simp only [List.mem_cons, ih]
      constructor
      · rintro (rfl | ⟨m', hm', hr', he'⟩)
        · exact ⟨m, Or.inl rfl, hm, rfl⟩
        · exact ⟨m', Or.inr hm', hr', he'⟩
      · rintro ⟨m', (rfl | hm'), hr', he'⟩
        · exact Or.inl he'.symm
        · exact Or.inr ⟨m', hm', hr', he'⟩
    · rw [collectMembers, if_neg hm]
      rw [ih]
      constructor
      · rintro ⟨m', hm', hr', he'⟩
        exact ⟨m', List.mem_cons_of_mem _ hm', hr', he'⟩
      · rintro ⟨m', hm', hr', he'⟩
        rcases List.mem_cons.1 hm' with rfl | hm''
        · exact absurd hr' hm
        · exact ⟨m', hm'', hr', he'⟩

theorem setRoleField_id (d : ResourceData) (key : String) (v : List String) :
    (setRoleField d key v).id = d.id := by
  unfold setRoleField
  split <;> try rfl
  split <;> try rfl
  split <;> rfl

theorem readLoop_id (A : Adapter σ) (gid : String) (ps : List (String × String))
    (d : ResourceData) (s : σ) : (readLoop A gid ps d s).d.id = d.id := by
  induction ps generalizing d s with
  | nil => simp [readLoop]
  | cons p rest ih =>
    rcases p with ⟨role, key⟩
    rw [readLoop]
    rcases hf : (getApiMembers gid role A s).res with e | ms
    · simp only [hf]
    · simp only [hf]
      rw [ih]
      exact setRoleField_id d key ms

theorem read_preserves_id (d : ResourceData) (A : Adapter σ) (s : σ) :
    (resourceGroupMembersRead d A s).d.id = d.id := by
  unfold resourceGroupMembersRead
  rcases hr : (readLoop A d.id rolesMap d s).res with _ | e
  · simp only [hr]
    rw [readLoop_id]
  · simp only [hr]
    rw [readLoop_id]

theorem createLoop_cons_fetch_err (A : Adapter σ) (gid : String) (d : ResourceData)
    (role key : String) (rest : List (String × String)) (s : σ) (e : String)
    (h : (getApiMembers gid role A s).res = Except.error e) :
    createLoop A gid d ((role, key) :: rest) s =
      ⟨(getApiMembers gid role A s).calls, some ("Error adding members: " ++ e),
       (getApiMembers gid role A s).s⟩ := by
  unfold createLoop
  simp only [h]

theorem createLoop_cons_recon_err (A : Adapter σ) (gid : String) (d : ResourceData)
    (role key : String) (rest : List (String × String)) (s : σ) (api : List String) (e : String)
    (hf : (getApiMembers gid role A s).res = Except.ok api)
    (hr : (reconcileMembers (resourceRoleMembers d key) api A gid role
      (getApiMembers gid role A s).s).res = some e) :
    createLoop A gid d ((role, key) :: rest) s =
      ⟨(getApiMembers gid role A s).calls ++
        (reconcileMembers (resourceRoleMembers d key) api A gid role
          (getApiMembers gid role A s).s).calls,
       some ("Error adding members: " ++ e),
       (reconcileMembers (resourceRoleMembers d key) api A gid role
         (getApiMembers gid role A s).s).s⟩ := by
  rw [createLoop.eq_2]
  simp only [hf, hr]

theorem createLoop_cons_ok (A : Adapter σ) (gid : String) (d : ResourceData)
    (role key : String) (rest : List (String × String)) (s : σ) (api : List String)
    (hf : (getApiMembers gid role A s).res = Except.ok api)
    (hr : (reconcileMembers (resourceRoleMembers d key) api A gid role
      (getApiMembers gid role A s).s).res = none) :
    createLoop A gid d ((role, key) :: rest) s =
      ⟨(getApiMembers gid role A s).calls ++
        (reconcileMembers (resourceRoleMembers d key) api A gid role
          (getApiMembers gid role A s).s).calls ++
        (createLoop A gid d rest
          (reconcileMembers (resourceRoleMembers d key) api A gid role
            (getApiMembers gid role A s).s).s).calls,
       (createLoop A gid d rest
         (reconcileMembers (resourceRoleMembers d key) api A gid role
           (getApiMembers gid role A s).s).s).res,
       (createLoop A gid d rest
         (reconcileMembers (resourceRoleMembers d key) api A gid role
           (getApiMembers gid role A s).s).s).s⟩ := by
  rw [createLoop.eq_2]
  simp only [hf, hr]

theorem updateLoop_cons_fetch_err (A : Adapter σ) (gid : String) (d : ResourceData)
    (role key : String) (rest : List (String × String)) (s : σ) (e : String)
    (h : (getApiMembers gid role A s).res = Except.error e) :
    updateLoop A gid d ((role, key) :: rest) s =
      ⟨(getApiMembers gid role A s).calls, some ("Error updating memberships: " ++ e),
       (getApiMembers gid role A s).s⟩ := by
  unfold updateLoop
  simp only [h]

theorem updateLoop_cons_recon_err (A : Adapter σ) (gid : String) (d : ResourceData)
    (role key : String) (rest : List (String × String)) (s : σ) (api : List String) (e : String)
    (hf : (getApiMembers gid role A s).res = Except.ok api)
    (hr : (reconcileMembers (resourceRoleMembers d key) api A gid role
      (getApiMembers gid role A s).s).res = some e) :
    updateLoop A gid d ((role, key) :: rest) s =
      ⟨(getApiMembers gid role A s).calls ++
        (reconcileMembers (resourceRoleMembers d key) api A gid role
          (getApiMembers gid role A s).s).calls,
       some ("Error updating memberships: " ++ e),
       (reconcileMembers (resourceRoleMembers d key) api A gid role
         (getApiMembers gid role A s).s).s⟩ := by
  rw [updateLoop.eq_2]
  simp only [hf, hr]

theorem updateLoop_cons_ok (A : Adapter σ) (gid : String) (d : ResourceData)
    (role key : String) (rest : List (String × String)) (s : σ) (api : List String)
    (hf : (getApiMembers gid role A s).res = Except.ok api)
    (hr : (reconcileMembers (resourceRoleMembers d key) api A gid role
      (getApiMembers gid role A s).s).res = none) :
    updateLoop A gid d ((role, key) :: rest) s =
      ⟨(getApiMembers gid role A s).calls ++
        (reconcileMembers (resourceRoleMembers d key) api A gid role
          (getApiMembers gid role A s).s).calls ++
        (updateLoop A gid d rest
          (reconcileMembers (resourceRoleMembers d key) api A gid role
            (getApiMembers gid role A s).s).s).calls,
       (updateLoop A gid d rest
         (reconcileMembers (resourceRoleMembers d key) api A gid role
           (getApiMembers gid role A s).s).s).res,
       (updateLoop A gid d rest
         (reconcileMembers (resourceRoleMembers d key) api A gid role
           (getApiMembers gid role A s).s).s).s⟩ := by
  rw [updateLoop.eq_2]
  simp only [hf, hr]

theorem create_of_loop_err (d : ResourceData) (A : Adapter σ) (s : σ) (e : String)
    (h : (createLoop A d.group d rolesMap s).res = some e) :
    resourceGroupMembersCreate d A s =
      ⟨d, (createLoop A d.group d rolesMap s).s,
       (createLoop A d.group d rolesMap s).calls, some e⟩ := by
  unfold resourceGroupMembersCreate
  simp only [h]

theorem create_of_loop_ok (d : ResourceData) (A : Adapter σ) (s : σ)
    (h : (createLoop A d.group d rolesMap s).res = none) :
    resourceGroupMembersCreate d A s =
      ⟨(resourceGroupMembersRead { d with id := d.group } A
          (createLoop A d.group d rolesMap s).s).d,
       (resourceGroupMembersRead { d with id := d.group } A
         (createLoop A d.group d rolesMap s).s).s,
       (createLoop A d.group d rolesMap s).calls ++
         (resourceGroupMembersRead { d with id := d.group } A
           (createLoop A d.group d rolesMap s).s).calls,
       (resourceGroupMembersRead { d with id := d.group } A
         (createLoop A d.group d rolesMap s).s).res⟩ := by
  unfold resourceGroupMembersCreate
  simp only [h]

theorem update_of_loop_err (d : ResourceData) (A : Adapter σ) (s : σ) (e : String)
    (h : (updateLoop A d.group d rolesMap s).res = some e) :
    resourceGroupMembersUpdate d A s =
      ⟨d, (updateLoop A d.group d rolesMap s).s,
       (updateLoop A d.group d rolesMap s).calls, some e⟩ := by
  unfold resourceGroupMembersUpdate
  simp only [h]

theorem read_of_loop_err (d : ResourceData) (A : Adapter σ) (s : σ) (e : String)
    (h : (readLoop A d.id rolesMap d s).res = some e) :
    resourceGroupMembersRead d A s =
      ⟨(readLoop A d.id rolesMap d s).d, (readLoop A d.id rolesMap d s).s,
       (readLoop A d.id rolesMap d s).calls, some e⟩ := by
  unfold resourceGroupMembersRead
  simp only [h]

theorem read_of_loop_ok (d : ResourceData) (A : Adapter σ) (s : σ)
    (h : (readLoop A d.id rolesMap d s).res = none) :
    resourceGroupMembersRead d A s =
      ⟨{ (readLoop A d.id rolesMap d s).d with
           group := (readLoop A d.id rolesMap d s).d.id },
       (readLoop A d.id rolesMap d s).s,
       (readLoop A d.id rolesMap d s).calls, none⟩ := by
  unfold resourceGroupMembersRead
  simp only [h]

/-! ### Helper lemmas: the fake store adapter -/

theorem collectMembers_eq (role : String) (l : List Member) :
    collectMembers role l = membersOf role l := by
  induction l with
  | nil => simp [collectMembers, membersOf]
  | cons m rest ih =>
    by_cases hm : m.role = role
    · simp [collectMembers, membersOf, hm] at ih ⊢
      exact ih
    · simp [collectMembers, membersOf, hm] at ih ⊢
      exact ih

theorem mem_membersOf (role : String) (s : List Member) (x : String) :
    x ∈ membersOf role s ↔ ∃ m, m ∈ s ∧ m.role = role ∧ m.email = x := by
  rw [← collectMembers_eq]
  exact mem_collectMembers role s x

theorem getApi_store (gid role : String) (s : List Member) :
    getApiMembers gid role storeAdapter s =
      ⟨Except.ok (membersOf role s), s, [Call.list gid role]⟩ := by
  unfold getApiMembers storeAdapter
  simp [collectMembers_eq]

theorem foldl_store_delete (gid : String) (ks : List String) (s : List Member) :
    ks.foldl (fun t k => (storeAdapter.delete gid k t).2) s =
      s.filter (fun m => decide (¬ m.email ∈ ks)) := by
  induction ks generalizing s with
  | nil => simp
  | cons k rest ih =>
    rw [List.foldl_cons]
    have hstep : (storeAdapter.delete gid k s).2 =
        s.filter (fun m => decide (¬ m.email = k)) := rfl
    rw [hstep, ih, List.filter_filter]
    refine List.filter_congr ?_
    intro m _
    by_cases h1 : m.email = k <;> by_cases h2 : m.email ∈ rest <;>
      simp [h1, h2, List.mem_cons]

theorem emails_append (l₁ l₂ : List Member) :
    emails (l₁ ++ l₂) = emails l₁ ++ emails l₂ := by
  simp [emails]

theorem email_inj (s : List Member) (hnd : (emails s).Nodup) :
    ∀ m ∈ s, ∀ m' ∈ s, m.email = m'.email → m = m' := by
  induction s with
  | nil => intro m hm; cases hm
  | cons a rest ih =>
    have hnd' : (emails rest).Nodup := (List.nodup_cons.1 hnd).2
    have hna : a.email ∉ emails rest := (List.nodup_cons.1 hnd).1
    intro m hm m' hm' he
    rcases List.mem_cons.1 hm with rfl | hm2
    · rcases List.mem_cons.1 hm' with rfl | hm2'
      · rfl
      · exact absurd (he ▸ List.mem_map_of_mem Member.email hm2') hna
    · rcases List.mem_cons.1 hm' with rfl | hm2'
      · exact absurd (he ▸ List.mem_map_of_mem Member.email hm2) hna
      · exact ih hnd' m hm2 m' hm2' he

theorem membersOf_append (r : String) (l₁ l₂ : List Member) :
    membersOf r (l₁ ++ l₂) = membersOf r l₁ ++ membersOf r l₂ := by
  simp [membersOf]

theorem membersOf_mk_self (role : String) (ks : List String) :
    membersOf role (ks.map (fun k => Member.mk k role)) = ks := by
  induction ks with
  | nil => simp [membersOf]
  | cons k rest ih => simp [membersOf] at ih ⊢; exact ih

theorem membersOf_mk_ne (r role : String) (h : ¬ r = role) (ks : List String) :
    membersOf r (ks.map (fun k => Member.mk k role)) = [] := by
  have h' : ¬ role = r := fun hh => h hh.symm
  induction ks with
  | nil => simp [membersOf]
  | cons k rest ih =>
    rw [List.map_cons]
    unfold membersOf at ih ⊢
    rw [List.filter_cons_of_neg (by simp [h'])]
    exact ih

theorem membersOf_filter_email (r : String) (q : String → Bool) (s : List Member) :
    membersOf r (s.filter (fun m => q m.email)) = (membersOf r s).filter q := by
  unfold membersOf
  rw [List.filter_filter, List.filter_map, List.filter_filter]
  refine congrArg _ (List.filter_congr ?_)
  intro m _
  by_cases h1 : m.role = r <;> by_cases h2 : q m.email <;>
    simp [h1, h2, Function.comp]

theorem membersOf_filter_of (r : String) (p : Member → Bool) (s : List Member)
    (h : ∀ m ∈ s, m.role = r → p m = true) :
    membersOf r (s.filter p) = membersOf r s := by
  unfold membersOf
  rw [List.filter_filter]
  refine congrArg _ (List.filter_congr ?_)
  intro m hm
  by_cases h1 : m.role = r
  · simp [h1, h m hm h1]
  · simp [h1]

theorem loop2_store (gid role : String) (keys : List String) (s : List Member)
    (h : (reconLoop2 storeAdapter gid role keys s).res = none) :
    (reconLoop2 storeAdapter gid role keys s).s =
      (keys.reverse.map (fun k => Member.mk k role)) ++ s ∧
    ∀ k ∈ keys, ¬ k ∈ emails s := by
  induction keys generalizing s with
  | nil => exact ⟨by simp [reconLoop2], by simp⟩
  | cons k rest ih =>
    cases hany : s.any (fun x => decide (x.email = k)) with
    | true =>
      exfalso
      rw [reconLoop2] at h
      simp only [addMember, storeAdapter, hany] at h
      simp at h
    | false =>
      have hstep : addMember k gid role storeAdapter s =
          ⟨none, Member.mk k role :: s, [Call.insert gid k role]⟩ := by
        simp only [addMember, storeAdapter, hany]
        simp
      have hres' : (reconLoop2 storeAdapter gid role rest (Member.mk k role :: s)).res =
          none := by
        rw [reconLoop2, hstep] at h
        exact h
      obtain ⟨hs', hmem⟩ := ih (Member.mk k role :: s) hres'
      have hknot : ¬ k ∈ emails s := by
        intro hk
        obtain ⟨m, hm, he⟩ := List.mem_map.1 hk
        have := List.any_eq_false.1 hany m hm
        simp [he] at this
      constructor
      · rw [reconLoop2, hstep]
        show (reconLoop2 storeAdapter gid role rest (Member.mk k role :: s)).s = _
        rw [hs']
        simp
      · intro x hx
        rcases List.mem_cons.1 hx with rfl | hx2
        · exact hknot
        · intro hxs
          exact hmem x hx2 (by simp [emails] at hxs ⊢; exact Or.inr hxs)

theorem membersOf_store_filter (r : String) (ks : List String) (s : List Member) :
    membersOf r (s.filter (fun m => decide (¬ m.email ∈ ks))) =
      (membersOf r s).filter (fun e => decide (¬ e ∈ ks)) :=
  membersOf_filter_email r (fun e => decide (¬ e ∈ ks)) s

theorem reconcile_store (gid role : String) (cfg : List String) (s : List Member)
    (hnd : (emails s).Nodup)
    (hres : (reconcileMembers cfg (membersOf role s) storeAdapter gid role s).res = none) :
    (∀ x, x ∈ membersOf role
        (reconcileMembers cfg (membersOf role s) storeAdapter gid role s).s ↔ x ∈ cfg) ∧
    (∀ r, ¬ r = role →
      membersOf r (reconcileMembers cfg (membersOf role s) storeAdapter gid role s).s =
        membersOf r s) ∧
    (emails (reconcileMembers cfg (membersOf role s) storeAdapter gid role s).s).Nodup := by
  have hdel : ∀ g m (t : List Member), (storeAdapter.delete g m t).1 = none :=
    fun _ _ _ => rfl
  have h1 := loop1_success storeAdapter gid (membersOf role s).dedup cfg.dedup s hdel
    (List.nodup_dedup _) (List.nodup_dedup _)
  have hres1 : (reconLoop1 storeAdapter gid (membersOf role s).dedup cfg.dedup s).res =
      none := by rw [h1]
  have hu := reconcileMembers_of_loop1_ok cfg (membersOf role s) storeAdapter gid role s hres1
  have hcfg' : (reconLoop1 storeAdapter gid (membersOf role s).dedup cfg.dedup s).cfg =
      cfg.dedup.filter (fun c => decide (c ∉ (membersOf role s).dedup)) := by rw [h1]
  have hs' : (reconLoop1 storeAdapter gid (membersOf role s).dedup cfg.dedup s).s =
      s.filter (fun m => decide (¬ m.email ∈
        (membersOf role s).dedup.filter (fun k => decide (k ∉ cfg.dedup)))) := by
    rw [h1]
    show ((membersOf role s).dedup.filter (fun k => decide (k ∉ cfg.dedup))).foldl
      (fun t k => (storeAdapter.delete gid k t).2) s = _
    rw [foldl_store_delete]
  have hres2 : (reconLoop2 storeAdapter gid role
      (cfg.dedup.filter (fun c => decide (c ∉ (membersOf role s).dedup)))
      (s.filter (fun m => decide (¬ m.email ∈
        (membersOf role s).dedup.filter (fun k => decide (k ∉ cfg.dedup)))))).res = none := by
    rw [hu, hcfg', hs'] at hres
    exact hres
  obtain ⟨hfin, hdisj⟩ := loop2_store gid role _ _ hres2
  have hSfin : (reconcileMembers cfg (membersOf role s) storeAdapter gid role s).s =
      ((cfg.dedup.filter (fun c => decide (c ∉ (membersOf role s).dedup))).reverse.map
        (fun k => Member.mk k role)) ++
      (s.filter (fun m => decide (¬ m.email ∈
        (membersOf role s).dedup.filter (fun k => decide (k ∉ cfg.dedup))))) := by
    rw [hu, hcfg', hs']
    exact hfin
  refine ⟨?_, ?_, ?_⟩
  · intro x
    rw [hSfin, membersOf_append, membersOf_mk_self, membersOf_store_filter]
    simp only [List.mem_append, List.mem_reverse, List.mem_filter, List.mem_dedup,
      decide_eq_true_eq]
    by_cases hc : x ∈ cfg <;> by_cases ha : x ∈ membersOf role s <;>
      simp [hc, ha, List.mem_filter, List.mem_dedup]
  · intro r hr
    rw [hSfin, membersOf_append, membersOf_mk_ne r role hr, List.nil_append]
    refine membersOf_filter_of r _ s ?_
    intro m hm hrole
    simp only [decide_eq_true_eq]
    intro hmem
    have hx : m.email ∈ membersOf role s :=
      List.mem_dedup.1 (List.mem_filter.1 hmem).1
    obtain ⟨m', hm', hrole', hemail'⟩ := (mem_membersOf role s m.email).1 hx
    have hmm : m = m' := email_inj s hnd m hm m' hm' hemail'.symm
    rw [hmm] at hrole
    exact hr (hrole.symm.trans hrole')
  · rw [hSfin, emails_append]
    have he1 : emails
        ((cfg.dedup.filter (fun c => decide (c ∉ (membersOf role s).dedup))).reverse.map
          (fun k => Member.mk k role)) =
        (cfg.dedup.filter (fun c => decide (c ∉ (membersOf role s).dedup))).reverse := by
      simp only [emails, List.map_map, List.map_reverse]
      exact congrArg _ (List.map_id _)
    rw [he1]
    refine List.Nodup.append ?_ ?_ ?_
    · exact List.nodup_reverse.2 ((List.nodup_dedup _).filter _)
    · exact ((List.filter_sublist s).map Member.email).nodup hnd
    · intro a ha hb
      exact hdisj a (List.mem_reverse.1 ha) hb

theorem createLoop_store_cons_err (gid : String) (d : ResourceData) (role key : String)
    (rest : List (String × String)) (s : List Member) (e : String)
    (h : (reconcileMembers (resourceRoleMembers d key) (membersOf role s)
      storeAdapter gid role s).res = some e) :
    createLoop storeAdapter gid d ((role, key) :: rest) s =
      ⟨[Call.list gid role] ++ (reconcileMembers (resourceRoleMembers d key)
          (membersOf role s) storeAdapter gid role s).calls,
       some ("Error adding members: " ++ e),
       (reconcileMembers (resourceRoleMembers d key) (membersOf role s)
         storeAdapter gid role s).s⟩ := by
  rw [createLoop.eq_2]
  simp only [getApi_store, h]

theorem createLoop_store_cons_ok (gid : String) (d : ResourceData) (role key : String)
    (rest : List (String × String)) (s : List Member)
    (h : (reconcileMembers (resourceRoleMembers d key) (membersOf role s)
      storeAdapter gid role s).res = none) :
    createLoop storeAdapter gid d ((role, key) :: rest) s =
      ⟨[Call.list gid role] ++ (reconcileMembers (resourceRoleMembers d key)
          (membersOf role s) storeAdapter gid role s).calls ++
        (createLoop storeAdapter gid d rest
          (reconcileMembers (resourceRoleMembers d key) (membersOf role s)
            storeAdapter gid role s).s).calls,
       (createLoop storeAdapter gid d rest
         (reconcileMembers (resourceRoleMembers d key) (membersOf role s)
           storeAdapter gid role s).s).res,
       (createLoop storeAdapter gid d rest
         (reconcileMembers (resourceRoleMembers d key) (membersOf role s)
           storeAdapter gid role s).s).s⟩ := by
  rw [createLoop.eq_2]
  simp only [getApi_store, h]

theorem read_store (d : ResourceData) (s : List Member) :
    resourceGroupMembersRead d storeAdapter s =
      ⟨⟨d.id, d.id, membersOf "OWNER" s, membersOf "MANAGER" s, membersOf "MEMBER" s⟩, s,
       [Call.list d.id "MANAGER", Call.list d.id "MEMBER", Call.list d.id "OWNER"],
       none⟩ := by
  unfold resourceGroupMembersRead
  simp only [rolesMap, readLoop, getApi_store, setRoleField]
  simp

theorem createLoop_store_step (gid : String) (d : ResourceData) (role key : String)
    (rest : List (String × String)) (t : List Member)
    (h : (createLoop storeAdapter gid d ((role, key) :: rest) t).res = none) :
    (reconcileMembers (resourceRoleMembers d key) (membersOf role t)
      storeAdapter gid role t).res = none ∧
    (createLoop storeAdapter gid d rest
      (reconcileMembers (resourceRoleMembers d key) (membersOf role t)
        storeAdapter gid role t).s).res = none ∧
    (createLoop storeAdapter gid d ((role, key) :: rest) t).s =
      (createLoop storeAdapter gid d rest
        (reconcileMembers (resourceRoleMembers d key) (membersOf role t)
          storeAdapter gid role t).s).s := by
  rcases hr : (reconcileMembers (resourceRoleMembers d key) (membersOf role t)
      storeAdapter gid role t).res with _ | e
  · refine ⟨rfl, ?_, ?_⟩
    · rw [createLoop_store_cons_ok gid d role key rest t hr] at h
      exact h
    · rw [createLoop_store_cons_ok gid d role key rest t hr]
  · exfalso
    rw [createLoop_store_cons_err gid d role key rest t e hr] at h
    simp at h

theorem resourceRoleMembers_managers (d : ResourceData) :
    resourceRoleMembers d "managers" = d.managers := rfl

theorem resourceRoleMembers_members (d : ResourceData) :
    resourceRoleMembers d "members" = d.members := rfl

theorem resourceRoleMembers_owners (d : ResourceData) :
    resourceRoleMembers d "owners" = d.owners := rfl

/-! ### Claim theorems -/

/-- C1. Minimality of reconciliation: when every adapter call succeeds,
`reconcileMembers` returns success, issues exactly one remove call for each
distinct member of `apiMembers − cfgMembers`, exactly one add call for each
distinct member of `cfgMembers − apiMembers`, no add or remove call for a
member present in both, and issues no call at all when the two sets are
equal. -/
theorem claim1_minimality (A : Adapter σ) (cfg api : List String) (gid role : String) (s : σ)
    (hdel : ∀ g m t, (A.delete g m t).1 = none)
    (hins : ∀ g m r t, (A.insert g m r t).1 = none) :
    (reconcileMembers cfg api A gid role s).res = none ∧
    (∀ x, (reconcileMembers cfg api A gid role s).calls.count (Call.delete gid x) =
        if x ∈ api ∧ x ∉ cfg then 1 else 0) ∧
    (∀ x, (reconcileMembers cfg api A gid role s).calls.count (Call.insert gid x role) =
        if x ∈ cfg ∧ x ∉ api then 1 else 0) ∧
    ((∀ x, x ∈ cfg ↔ x ∈ api) → (reconcileMembers cfg api A gid role s).calls = []) := by
  have h1 := loop1_success A gid api.dedup cfg.dedup s hdel
    (List.nodup_dedup api) (List.nodup_dedup cfg)
  have hres1 : (reconLoop1 A gid api.dedup cfg.dedup s).res = none := by rw [h1]
  have hu := reconcileMembers_of_loop1_ok cfg api A gid role s hres1
  have h2 := loop2_success A gid role (reconLoop1 A gid api.dedup cfg.dedup s).cfg
    (reconLoop1 A gid api.dedup cfg.dedup s).s hins
  rw [h2] at hu
  rw [h1] at hu
  have hinjd : Function.Injective (Call.delete gid) := by
    intro a b h; simpa using h
  have hinji : Function.Injective (fun k => Call.insert gid k role) := by
    intro a b h; simpa using h
  have hndd : (api.dedup.filter (fun k => decide (k ∉ cfg.dedup))).Nodup :=
    (List.nodup_dedup api).filter _
  have hnda : (cfg.dedup.filter (fun c => decide (c ∉ api.dedup))).Nodup :=
    (List.nodup_dedup cfg).filter _
  have hcalls : (reconcileMembers cfg api A gid role s).calls =
      (api.dedup.filter (fun k => decide (k ∉ cfg.dedup))).map (Call.delete gid) ++
      (cfg.dedup.filter (fun c => decide (c ∉ api.dedup))).map
        (fun k => Call.insert gid k role) := by
    rw [hu]
  refine ⟨by rw [hu], ?_, ?_, ?_⟩
  · intro x
    rw [hcalls, List.count_append]
    have hz : (List.count (Call.delete gid x)
        ((cfg.dedup.filter (fun c => decide (c ∉ api.dedup))).map
          (fun k => Call.insert gid k role))) = 0 := by
      refine List.count_eq_zero.2 ?_
      simp [List.mem_map]
    rw [hz, Nat.add_zero, List.count_map_of_injective _ _ hinjd]
    by_cases hx : x ∈ api ∧ x ∉ cfg
    · rw [if_pos hx]
      refine List.count_eq_one_of_mem hndd ?_
      simp [List.mem_filter, List.mem_dedup, hx.1, hx.2]
    · rw [if_neg hx]
      refine List.count_eq_zero.2 ?_
      simp only [List.mem_filter, List.mem_dedup, decide_eq_true_eq]
      intro hc
      exact hx ⟨hc.1, hc.2⟩
  · intro x
    rw [hcalls, List.count_append]
    have hz : (List.count (Call.insert gid x role)
        ((api.dedup.filter (fun k => decide (k ∉ cfg.dedup))).map (Call.delete gid))) = 0 := by
      refine List.count_eq_zero.2 ?_
      simp [List.mem_map]
    rw [hz, Nat.zero_add]
    have := List.count_map_of_injective
      (cfg.dedup.filter (fun c => decide (c ∉ api.dedup))) _ hinji x
    rw [this]
    by_cases hx : x ∈ cfg ∧ x ∉ api
    · rw [if_pos hx]
      refine List.count_eq_one_of_mem hnda ?_
      simp [List.mem_filter, List.mem_dedup, hx.1, hx.2]
    · rw [if_neg hx]
      refine List.count_eq_zero.2 ?_
      simp only [List.mem_filter, List.mem_dedup, decide_eq_true_eq]
      intro hc
      exact hx ⟨hc.1, hc.2⟩
  · intro hset
    rw [hcalls]
    have hd : api.dedup.filter (fun k => decide (k ∉ cfg.dedup)) = [] := by
      refine List.filter_eq_nil_iff.2 ?_
      intro a ha
      simp only [List.mem_dedup] at ha
      simp [List.mem_dedup, (hset a).2 ha]
    have ha : cfg.dedup.filter (fun c => decide (c ∉ api.dedup)) = [] := by
      refine List.filter_eq_nil_iff.2 ?_
      intro a ha'
      simp only [List.mem_dedup] at ha'
      simp [List.mem_dedup, (hset a).1 ha']
    rw [hd, ha]
    simp

/-- Witness for C1 at the example of §8: desired `{a,b}`, actual `{b,c}`
against the always-succeeding adapter: success, one remove of `c`, one add
of `a`, and no remove of the shared member `b`. -/
theorem claim1_minimality_witness :
    (reconcileMembers ["a", "b"] ["b", "c"] okAdapter "g" "OWNER" ()).res = none ∧
    (reconcileMembers ["a", "b"] ["b", "c"] okAdapter "g" "OWNER" ()).calls.count
      (Call.delete "g" "c") = 1 ∧
    (reconcileMembers ["a", "b"] ["b", "c"] okAdapter "g" "OWNER" ()).calls.count
      (Call.insert "g" "a" "OWNER") = 1 ∧
    (reconcileMembers ["a", "b"] ["b", "c"] okAdapter "g" "OWNER" ()).calls.count
      (Call.delete "g" "b") = 0 := by
  obtain ⟨h1, h2, h3, _⟩ := claim1_minimality okAdapter ["a", "b"] ["b", "c"] "g" "OWNER" ()
    (fun _ _ _ => rfl) (fun _ _ _ _ => rfl)
  refine ⟨h1, ?_, ?_, ?_⟩
  · have h := h2 "c"
    rwa [if_pos ⟨by decide, by decide⟩] at h
  · have h := h3 "a"
    rwa [if_pos ⟨by decide, by decide⟩] at h
  · have h := h2 "b"
    rwa [if_neg (by decide)] at h

/-- C3. Fail-fast on remove, removals before additions: if the removal phase
of `reconcileMembers` fails with error `e`, the function returns exactly the
removal phase's calls together with that error (aborting immediately), every
issued call is a remove, and the failing remove — of some member of the
actual list — is the last call issued, its `deleteMember` error being the
returned one. -/
theorem claim3_fail_fast_on_remove (A : Adapter σ) (cfg api : List String)
    (gid role : String) (s : σ) (e : String)
    (h : (reconLoop1 A gid api.dedup cfg.dedup s).res = some e) :
    reconcileMembers cfg api A gid role s =
      ⟨(reconLoop1 A gid api.dedup cfg.dedup s).calls, some e,
       (reconLoop1 A gid api.dedup cfg.dedup s).s⟩ ∧
    (∀ c ∈ (reconcileMembers cfg api A gid role s).calls, ∃ k, c = Call.delete gid k) ∧
    (∃ k t, k ∈ api ∧
      (reconcileMembers cfg api A gid role s).calls.getLast? = some (Call.delete gid k) ∧
      (deleteMember k gid A t).res = some e) := by
  have hu := reconcileMembers_of_loop1_err cfg api A gid role s e h
  refine ⟨hu, ?_, ?_⟩
  · intro c hc
    rw [hu] at hc
    have hsub := loop1_calls_sublist A gid api.dedup cfg.dedup s
    obtain ⟨k, _, rfl⟩ := List.mem_map.1 (hsub.subset hc)
    exact ⟨k, rfl⟩
  · obtain ⟨k, t, hmem, hlast, herr⟩ := loop1_abort A gid api.dedup cfg.dedup s e h
    refine ⟨k, t, List.mem_dedup.1 hmem, ?_, herr⟩
    rw [hu]
    exact hlast

/-- Witness for C3: one undesired member `c` against an adapter whose removal
always fails: the reconciliation issues the single remove of `c` and stops
with the wrapped removal error. -/
theorem claim3_fail_fast_on_remove_witness :
    reconcileMembers [] ["c"] failDeleteAdapter "g" "OWNER" () =
      ⟨[Call.delete "g" "c"], some "Error deleting group: delboom", ()⟩ := by
  have h := (claim3_fail_fast_on_remove failDeleteAdapter [] ["c"] "g" "OWNER" ()
    "Error deleting group: delboom" (by decide)).1
  exact h.trans (by decide)

/-- C4. Fail-fast on add: if the removal phase of `reconcileMembers`
succeeds and the addition phase then fails with error `e`, the function
returns the removal calls followed by the addition calls made so far,
together with that error; the failing add is the last call issued, its
`addMember` error being the returned one, and every addition-phase call is
an add. -/
theorem claim4_fail_fast_on_add (A : Adapter σ) (cfg api : List String)
    (gid role : String) (s : σ) (e : String)
    (h1 : (reconLoop1 A gid api.dedup cfg.dedup s).res = none)
    (h2 : (reconLoop2 A gid role (reconLoop1 A gid api.dedup cfg.dedup s).cfg
      (reconLoop1 A gid api.dedup cfg.dedup s).s).res = some e) :
    reconcileMembers cfg api A gid role s =
      ⟨(reconLoop1 A gid api.dedup cfg.dedup s).calls ++
        (reconLoop2 A gid role (reconLoop1 A gid api.dedup cfg.dedup s).cfg
          (reconLoop1 A gid api.dedup cfg.dedup s).s).calls, some e,
       (reconLoop2 A gid role (reconLoop1 A gid api.dedup cfg.dedup s).cfg
         (reconLoop1 A gid api.dedup cfg.dedup s).s).s⟩ ∧
    (∃ k t, (reconcileMembers cfg api A gid role s).calls.getLast? =
        some (Call.insert gid k role) ∧
      (addMember k gid role A t).res = some e) ∧
    (∀ c ∈ (reconLoop2 A gid role (reconLoop1 A gid api.dedup cfg.dedup s).cfg
        (reconLoop1 A gid api.dedup cfg.dedup s).s).calls, ∃ k, c = Call.insert gid k role) := by
  have hu := reconcileMembers_of_loop1_ok cfg api A gid role s h1
  rw [h2] at hu
  refine ⟨hu, ?_, ?_⟩
  · obtain ⟨k, t, hmem, hlast, herr⟩ := loop2_abort A gid role
      (reconLoop1 A gid api.dedup cfg.dedup s).cfg
      (reconLoop1 A gid api.dedup cfg.dedup s).s e h2
    refine ⟨k, t, ?_, herr⟩
    rw [hu]
    have hne : (reconLoop2 A gid role (reconLoop1 A gid api.dedup cfg.dedup s).cfg
        (reconLoop1 A gid api.dedup cfg.dedup s).s).calls ≠ [] := by
      intro hnil; rw [hnil] at hlast; simp at hlast
    show ((reconLoop1 A gid api.dedup cfg.dedup s).calls ++
      (reconLoop2 A gid role (reconLoop1 A gid api.dedup cfg.dedup s).cfg
        (reconLoop1 A gid api.dedup cfg.dedup s).s).calls).getLast? =
      some (Call.insert gid k role)
    rw [List.getLast?_append_of_ne_nil _ hne]
    exact hlast
  · intro c hc
    have hsub := loop2_calls_sublist A gid role
      (reconLoop1 A gid api.dedup cfg.dedup s).cfg
      (reconLoop1 A gid api.dedup cfg.dedup s).s
    obtain ⟨k, _, rfl⟩ := List.mem_map.1 (hsub.subset hc)
    exact ⟨k, rfl⟩

/-- Witness for C4: one missing member `a` against an adapter whose
insertion always fails: the removal phase is empty, the single add of `a` is
issued and the reconciliation stops with the wrapped insertion error. -/
theorem claim4_fail_fast_on_add_witness :
    reconcileMembers ["a"] [] failInsertAdapter "g" "OWNER" () =
      ⟨[Call.insert "g" "a" "OWNER"], some "Error creating groupMember: boom", ()⟩ := by
  have h := (claim4_fail_fast_on_add failInsertAdapter ["a"] [] "g" "OWNER" ()
    "Error creating groupMember: boom" (by decide) (by decide)).1
  exact h.trans (by decide)

/-- C9. Reconciliation is set-semantic: for any inputs and any adapter, no
member is ever removed twice or added twice (duplicates in either input list
never cause duplicate calls); and under an always-succeeding adapter the
calls issued for set-equal input lists are a permutation of one another, so
the call behaviour depends only on the sets of distinct elements. -/
theorem claim9_set_semantics (A : Adapter σ) (gid role : String) (s : σ)
    (cfg1 api1 cfg2 api2 : List String) :
    (∀ x, (reconcileMembers cfg1 api1 A gid role s).calls.count (Call.delete gid x) ≤ 1 ∧
      (reconcileMembers cfg1 api1 A gid role s).calls.count (Call.insert gid x role) ≤ 1) ∧
    ((∀ x, x ∈ cfg1 ↔ x ∈ cfg2) → (∀ x, x ∈ api1 ↔ x ∈ api2) →
      (∀ g m t, (A.delete g m t).1 = none) →
      (∀ g m r t, (A.insert g m r t).1 = none) →
      List.Perm (reconcileMembers cfg1 api1 A gid role s).calls
        (reconcileMembers cfg2 api2 A gid role s).calls) := by
  have hinjd : Function.Injective (Call.delete gid) := by
    intro a b h; simpa using h
  have hinji : Function.Injective (fun k => Call.insert gid k role) := by
    intro a b h; simpa using h
  constructor
  · intro x
    have hnd1 : api1.dedup.Nodup := List.nodup_dedup _
    have hsub1 := loop1_calls_sublist A gid api1.dedup cfg1.dedup s
    have hdel_le : (reconLoop1 A gid api1.dedup cfg1.dedup s).calls.count
        (Call.delete gid x) ≤ 1 := by
      calc (reconLoop1 A gid api1.dedup cfg1.dedup s).calls.count (Call.delete gid x)
          ≤ (api1.dedup.map (Call.delete gid)).count (Call.delete gid x) :=
            hsub1.count_le _
        _ = api1.dedup.count x := List.count_map_of_injective _ _ hinjd x
        _ ≤ 1 := List.nodup_iff_count_le_one.1 hnd1 x
    have hins_zero : (reconLoop1 A gid api1.dedup cfg1.dedup s).calls.count
        (Call.insert gid x role) = 0 := by
      have hz : (api1.dedup.map (Call.delete gid)).count (Call.insert gid x role) = 0 :=
        List.count_eq_zero.2 (by simp)
      have h2 := hsub1.count_le (Call.insert gid x role)
      omega
    cases hres : (reconLoop1 A gid api1.dedup cfg1.dedup s).res with
    | some e =>
      have hu := reconcileMembers_of_loop1_err cfg1 api1 A gid role s e hres
      have hcalls : (reconcileMembers cfg1 api1 A gid role s).calls =
          (reconLoop1 A gid api1.dedup cfg1.dedup s).calls := by rw [hu]
      rw [hcalls]
      exact ⟨hdel_le, by omega⟩
    | none =>
      have hu := reconcileMembers_of_loop1_ok cfg1 api1 A gid role s hres
      have hcalls : (reconcileMembers cfg1 api1 A gid role s).calls =
          (reconLoop1 A gid api1.dedup cfg1.dedup s).calls ++
          (reconLoop2 A gid role (reconLoop1 A gid api1.dedup cfg1.dedup s).cfg
            (reconLoop1 A gid api1.dedup cfg1.dedup s).s).calls := by rw [hu]
      have hndc : (reconLoop1 A gid api1.dedup cfg1.dedup s).cfg.Nodup :=
        loop1_cfg_nodup A gid api1.dedup cfg1.dedup s (List.nodup_dedup _)
      have hsub2 := loop2_calls_sublist A gid role
        (reconLoop1 A gid api1.dedup cfg1.dedup s).cfg
        (reconLoop1 A gid api1.dedup cfg1.dedup s).s
      have hins_le : (reconLoop2 A gid role (reconLoop1 A gid api1.dedup cfg1.dedup s).cfg
          (reconLoop1 A gid api1.dedup cfg1.dedup s).s).calls.count
            (Call.insert gid x role) ≤ 1 := by
        calc (reconLoop2 A gid role (reconLoop1 A gid api1.dedup cfg1.dedup s).cfg
            (reconLoop1 A gid api1.dedup cfg1.dedup s).s).calls.count (Call.insert gid x role)
            ≤ ((reconLoop1 A gid api1.dedup cfg1.dedup s).cfg.map
                (fun k => Call.insert gid k role)).count (Call.insert gid x role) :=
              hsub2.count_le _
          _ = (reconLoop1 A gid api1.dedup cfg1.dedup s).cfg.count x :=
              List.count_map_of_injective _ _ hinji x
          _ ≤ 1 := List.nodup_iff_count_le_one.1 hndc x
      have hdel_zero : (reconLoop2 A gid role (reconLoop1 A gid api1.dedup cfg1.dedup s).cfg
          (reconLoop1 A gid api1.dedup cfg1.dedup s).s).calls.count
            (Call.delete gid x) = 0 := by
        have hz : ((reconLoop1 A gid api1.dedup cfg1.dedup s).cfg.map
            (fun k => Call.insert gid k role)).count (Call.delete gid x) = 0 :=
          List.count_eq_zero.2 (by simp)
        have h2 := hsub2.count_le (Call.delete gid x)
        omega
      rw [hcalls]
      rw [List.count_append, List.count_append]
      exact ⟨by omega, by omega⟩
  · intro hcfg hapi hdel hins
    have h11 := loop1_success A gid api1.dedup cfg1.dedup s hdel
      (List.nodup_dedup _) (List.nodup_dedup _)
    have h12 := loop1_success A gid api2.dedup cfg2.dedup s hdel
      (List.nodup_dedup _) (List.nodup_dedup _)
    have hres1 : (reconLoop1 A gid api1.dedup cfg1.dedup s).res = none := by rw [h11]
    have hres2 : (reconLoop1 A gid api2.dedup cfg2.dedup s).res = none := by rw [h12]
    have hu1 := reconcileMembers_of_loop1_ok cfg1 api1 A gid role s hres1
    have hu2 := reconcileMembers_of_loop1_ok cfg2 api2 A gid role s hres2
    rw [loop2_success A gid role _ _ hins] at hu1 hu2
    have hc1 : (reconcileMembers cfg1 api1 A gid role s).calls =
        ((api1.dedup.filter (fun k => decide (k ∉ cfg1.dedup))).map (Call.delete gid)) ++
        (((reconLoop1 A gid api1.dedup cfg1.dedup s).cfg).map
          (fun k => Call.insert gid k role)) := by
      rw [hu1, h11]
    have hc2 : (reconcileMembers cfg2 api2 A gid role s).calls =
        ((api2.dedup.filter (fun k => decide (k ∉ cfg2.dedup))).map (Call.delete gid)) ++
        (((reconLoop1 A gid api2.dedup cfg2.dedup s).cfg).map
          (fun k => Call.insert gid k role)) := by
      rw [hu2, h12]
    have hcfg1 : (reconLoop1 A gid api1.dedup cfg1.dedup s).cfg =
        cfg1.dedup.filter (fun c => decide (c ∉ api1.dedup)) := by rw [h11]
    have hcfg2 : (reconLoop1 A gid api2.dedup cfg2.dedup s).cfg =
        cfg2.dedup.filter (fun c => decide (c ∉ api2.dedup)) := by rw [h12]
    rw [hc1, hc2, hcfg1, hcfg2]
    have hpermD : List.Perm (api1.dedup.filter (fun k => decide (k ∉ cfg1.dedup)))
        (api2.dedup.filter (fun k => decide (k ∉ cfg2.dedup))) := by
      refine (List.perm_ext_iff_of_nodup ((List.nodup_dedup _).filter _)
        ((List.nodup_dedup _).filter _)).2 ?_
      intro a
      simp only [List.mem_filter, List.mem_dedup, decide_eq_true_eq]
      constructor
      · rintro ⟨h1, h2⟩
        exact ⟨(hapi a).1 h1, fun hc => h2 ((hcfg a).2 hc)⟩
      · rintro ⟨h1, h2⟩
        exact ⟨(hapi a).2 h1, fun hc => h2 ((hcfg a).1 hc)⟩
    have hpermA : List.Perm (cfg1.dedup.filter (fun c => decide (c ∉ api1.dedup)))
        (cfg2.dedup.filter (fun c => decide (c ∉ api2.dedup))) := by
      refine (List.perm_ext_iff_of_nodup ((List.nodup_dedup _).filter _)
        ((List.nodup_dedup _).filter _)).2 ?_
      intro a
      simp only [List.mem_filter, List.mem_dedup, decide_eq_true_eq]
      constructor
      · rintro ⟨h1, h2⟩
        exact ⟨(hcfg a).1 h1, fun hc => h2 ((hapi a).2 hc)⟩
      · rintro ⟨h1, h2⟩
        exact ⟨(hcfg a).2 h1, fun hc => h2 ((hapi a).1 hc)⟩
    exact (hpermD.map _).append (hpermA.map _)

/-- Witness for C9: duplicated and reordered inputs against the
always-succeeding adapter: at most one add of `a`, and the call lists for
`(["a","a"], ["b","b"])` and `(["a"], ["b"])` are permutations of each
other. -/
theorem claim9_set_semantics_witness :
    (reconcileMembers ["a", "a"] ["b", "b"] okAdapter "g" "OWNER" ()).calls.count
      (Call.insert "g" "a" "OWNER") ≤ 1 ∧
    List.Perm (reconcileMembers ["a", "a"] ["b", "b"] okAdapter "g" "OWNER" ()).calls
      (reconcileMembers ["a"] ["b"] okAdapter "g" "OWNER" ()).calls := by
  have h := claim9_set_semantics okAdapter "g" "OWNER" () ["a", "a"] ["b", "b"] ["a"] ["b"]
  refine ⟨(h.1 "a").2, ?_⟩
  exact h.2 (by intro x; simp) (by intro x; simp)
    (fun _ _ _ => rfl) (fun _ _ _ _ => rfl)

/-- C5. Sequential fail-fast across roles: in the per-role loops of Create
and Update, if the head role's pass fails then processing any further roles
changes nothing — the loop result (calls, error, state) is the same as when
the head role is the only role — and the lifecycle operation returns the
loop's wrapped error with no further adapter interaction. -/
theorem claim5_sequential_fail_fast (A : Adapter σ) (gid : String) (d : ResourceData)
    (s : σ) (role key : String) :
    (∀ e, (createLoop A gid d [(role, key)] s).res = some e →
      ∀ rest, createLoop A gid d ((role, key) :: rest) s =
        createLoop A gid d [(role, key)] s) ∧
    (∀ e, (updateLoop A gid d [(role, key)] s).res = some e →
      ∀ rest, updateLoop A gid d ((role, key) :: rest) s =
        updateLoop A gid d [(role, key)] s) ∧
    (∀ e, (createLoop A d.group d rolesMap s).res = some e →
      resourceGroupMembersCreate d A s =
        ⟨d, (createLoop A d.group d rolesMap s).s,
         (createLoop A d.group d rolesMap s).calls, some e⟩) ∧
    (∀ e, (updateLoop A d.group d rolesMap s).res = some e →
      resourceGroupMembersUpdate d A s =
        ⟨d, (updateLoop A d.group d rolesMap s).s,
         (updateLoop A d.group d rolesMap s).calls, some e⟩) := by
  refine ⟨?_, ?_, ?_, ?_⟩
  · intro e he rest
    rcases hf : (getApiMembers gid role A s).res with e' | api
    · rw [createLoop_cons_fetch_err A gid d role key rest s e' hf,
          createLoop_cons_fetch_err A gid d role key [] s e' hf]
    · rcases hr : (reconcileMembers (resourceRoleMembers d key) api A gid role
        (getApiMembers gid role A s).s).res with _ | e'
      · exfalso
        rw [createLoop_cons_ok A gid d role key [] s api hf hr] at he
        simp [createLoop] at he
      · rw [createLoop_cons_recon_err A gid d role key rest s api e' hf hr,
            createLoop_cons_recon_err A gid d role key [] s api e' hf hr]
  · intro e he rest
    rcases hf : (getApiMembers gid role A s).res with e' | api
    · rw [updateLoop_cons_fetch_err A gid d role key rest s e' hf,
          updateLoop_cons_fetch_err A gid d role key [] s e' hf]
    · rcases hr : (reconcileMembers (resourceRoleMembers d key) api A gid role
        (getApiMembers gid role A s).s).res with _ | e'
      · exfalso
        rw [updateLoop_cons_ok A gid d role key [] s api hf hr] at he
        simp [updateLoop] at he
      · rw [updateLoop_cons_recon_err A gid d role key rest s api e' hf hr,
            updateLoop_cons_recon_err A gid d role key [] s api e' hf hr]
  · exact fun e he => create_of_loop_err d A s e he
  · exact fun e he => update_of_loop_err d A s e he

/-- Witness for C5: against an adapter whose listing always fails, adding a
second role after an already-failing one changes nothing, and Create on the
three-role map stops after the very first listing call. -/
theorem claim5_sequential_fail_fast_witness :
    createLoop failListAdapter "g" sampleData
        [("OWNER", "owners"), ("MEMBER", "members")] () =
      createLoop failListAdapter "g" sampleData [("OWNER", "owners")] () ∧
    resourceGroupMembersCreate sampleData failListAdapter () =
      ⟨sampleData, (), [Call.list "g" "MANAGER"], some "Error adding members: listboom"⟩ := by
  have h := claim5_sequential_fail_fast failListAdapter "g" sampleData () "OWNER" "owners"
  constructor
  · exact h.1 "Error adding members: listboom" (by decide) [("MEMBER", "members")]
  · have h3 := h.2.2.1 "Error adding members: listboom" (by decide)
    exact h3.trans (by decide)

/-- C6. Delete is best-effort and always succeeds: for every resource state
and every adapter — including adapters whose removals fail —
`resourceGroupMembersDelete` returns success, clears the id (leaving the
other fields untouched), and issues exactly one remove call per member
recorded under each role field, in role order. -/
theorem claim6_delete_best_effort (d : ResourceData) (A : Adapter σ) (s : σ) :
    (resourceGroupMembersDelete d A s).res = none ∧
    (resourceGroupMembersDelete d A s).d = { d with id := "" } ∧
    (resourceGroupMembersDelete d A s).calls =
      d.managers.map (Call.delete d.id) ++ d.members.map (Call.delete d.id) ++
        d.owners.map (Call.delete d.id) := by
  refine ⟨rfl, rfl, ?_⟩
  show (deleteLoop A d rolesMap s).2 = _
  simp [deleteLoop, deleteAll_calls, resourceRoleMembers, rolesMap, List.append_assoc]

/-- C7 (counterexample): the insertion error message does not embed the
triggering member id nor the role: failing to add `alice` as `OWNER` yields
exactly `Error creating groupMember: boom`, which contains neither `alice`
nor `OWNER` as a substring. -/
theorem claim7_counterexample :
    (addMember "alice" "g" "OWNER" failInsertAdapter ()).res =
      some "Error creating groupMember: boom" ∧
    containsSub "Error creating groupMember: boom" "alice" = false ∧
    containsSub "Error creating groupMember: boom" "OWNER" = false := by
  refine ⟨by decide, by decide, by decide⟩

/-- C7 (amended). Add-error context: when the underlying insert call fails
with error `e`, `addMember` returns an error embedding the underlying
adapter error after the fixed prefix `Error creating groupMember: ` — the
member id and role are not part of the message. -/
theorem claim7_add_error_context (m gid role : String) (A : Adapter σ) (s : σ) (e : String)
    (h : (A.insert gid m role s).1 = some e) :
    (addMember m gid role A s).res = some ("Error creating groupMember: " ++ e) := by
  rcases h' : A.insert gid m role s with ⟨(_ | e2), s'⟩
  · rw [h'] at h; simp at h
  · rw [h'] at h
    have he : e2 = e := by simpa using h
    subst he
    simp [addMember, h']

/-- Witness for C7 (amended), at the failing-insert adapter. -/
theorem claim7_add_error_context_witness :
    (addMember "alice" "g" "OWNER" failInsertAdapter ()).res =
      some ("Error creating groupMember: " ++ "boom") :=
  claim7_add_error_context "alice" "g" "OWNER" failInsertAdapter () "boom" rfl

/-- C8. Defensive role filtering on listing: whatever record list the
underlying listing call returns, `getApiMembers` keeps an email exactly when
some returned record carries it with the requested role; a listing failure
is returned as the error with no members. -/
theorem claim8_defensive_role_filter (gid role : String) (A : Adapter σ) (s : σ) :
    (∀ ms s', A.list gid role s = (Except.ok ms, s') →
      getApiMembers gid role A s =
        ⟨Except.ok (collectMembers role ms), s', [Call.list gid role]⟩ ∧
      ∀ x, x ∈ collectMembers role ms ↔ ∃ m, m ∈ ms ∧ m.role = role ∧ m.email = x) ∧
    (∀ e s', A.list gid role s = (Except.error e, s') →
      getApiMembers gid role A s = ⟨Except.error e, s', [Call.list gid role]⟩) := by
  constructor
  · intro ms s' h
    refine ⟨?_, mem_collectMembers role ms⟩
    unfold getApiMembers
    rw [h]
  · intro e s' h
    unfold getApiMembers
    rw [h]

/-- Witness for C8: a listing returning an `OWNER` record for `a` and a
`MEMBER` record for `b` yields exactly `[a]` when `OWNER` is requested; `b`
is filtered out despite being returned by the listing. -/
theorem claim8_defensive_role_filter_witness :
    getApiMembers "g" "OWNER" mixAdapter () =
      ⟨Except.ok ["a"], (), [Call.list "g" "OWNER"]⟩ ∧
    ¬ "b" ∈ collectMembers "OWNER" [⟨"a", "OWNER"⟩, ⟨"b", "MEMBER"⟩] := by
  obtain ⟨h1, h2⟩ := (claim8_defensive_role_filter "g" "OWNER" mixAdapter ()).1
    [⟨"a", "OWNER"⟩, ⟨"b", "MEMBER"⟩] () rfl
  constructor
  · exact h1.trans (by rfl)
  · intro hb
    obtain ⟨m, hm, hrole, hemail⟩ := (h2 "b").1 hb
    rcases List.mem_cons.1 hm with rfl | hm2
    · simp at hemail
    · rcases List.mem_cons.1 hm2 with rfl | hm3
      · simp at hrole
      · simp at hm3

/-- C10. Create sets the persistent identifier before the read-back: when
every role reconciles but the subsequent read-back fails, Create returns the
read error unwrapped (no `Error adding members` prefix is added to it) and
the resulting resource keeps the group id as its identifier. -/
theorem claim10_id_before_readback (d : ResourceData) (A : Adapter σ) (s : σ) (e : String)
    (h1 : (createLoop A d.group d rolesMap s).res = none)
    (h2 : (resourceGroupMembersRead { d with id := d.group } A
      (createLoop A d.group d rolesMap s).s).res = some e) :
    (resourceGroupMembersCreate d A s).res = some e ∧
    (resourceGroupMembersCreate d A s).d.id = d.group := by
  have hu := create_of_loop_ok d A s h1
  constructor
  · rw [hu]; exact h2
  · rw [hu]
    show (resourceGroupMembersRead { d with id := d.group } A
      (createLoop A d.group d rolesMap s).s).d.id = d.group
    rw [read_preserves_id]

/-- Witness for C10, with the adapter that fails from the fourth listing on:
the three reconciliation listings succeed, the read-back fails with
`readboom`, Create returns exactly that error and its identifier is set. -/
theorem claim10_id_before_readback_witness :
    (resourceGroupMembersCreate sampleData flakyListAdapter 0).res = some "readboom" ∧
    (resourceGroupMembersCreate sampleData flakyListAdapter 0).d.id = "g" := by
  have h := claim10_id_before_readback sampleData flakyListAdapter 0 "readboom"
    (by decide) (by decide)
  exact ⟨h.1, h.2⟩

/-- C2. Round-trip convergence: against the fake store-backed directory
service, whenever Create succeeds starting from any store whose members are
unique per email (each member holds one role, §3 of the data model), the
membership bundle returned by the read-back equals the configured desired
bundle as sets, role by role. -/
theorem claim2_round_trip (d : ResourceData) (s0 : List Member)
    (hnd : (emails s0).Nodup)
    (hres : (resourceGroupMembersCreate d storeAdapter s0).res = none) :
    (∀ x, x ∈ (resourceGroupMembersCreate d storeAdapter s0).d.managers ↔
      x ∈ d.managers) ∧
    (∀ x, x ∈ (resourceGroupMembersCreate d storeAdapter s0).d.members ↔
      x ∈ d.members) ∧
    (∀ x, x ∈ (resourceGroupMembersCreate d storeAdapter s0).d.owners ↔
      x ∈ d.owners) := by
  cases hL0 : (createLoop storeAdapter d.group d rolesMap s0).res with
  | some e0 =>
    exfalso
    rw [create_of_loop_err d storeAdapter s0 e0 hL0] at hres
    simp at hres
  | none =>
    have hu := create_of_loop_ok d storeAdapter s0 hL0
    simp only [rolesMap] at hL0
    obtain ⟨h1, hL1, hs1eq⟩ := createLoop_store_step d.group d "MANAGER" "managers"
      [("MEMBER", "members"), ("OWNER", "owners")] s0 hL0
    obtain ⟨ka1, kb1, kc1⟩ := reconcile_store d.group "MANAGER"
      (resourceRoleMembers d "managers") s0 hnd h1
    set s1 := (reconcileMembers (resourceRoleMembers d "managers")
      (membersOf "MANAGER" s0) storeAdapter d.group "MANAGER" s0).s with hs1
    obtain ⟨h2, hL2, hs2eq⟩ := createLoop_store_step d.group d "MEMBER" "members"
      [("OWNER", "owners")] s1 hL1
    obtain ⟨ka2, kb2, kc2⟩ := reconcile_store d.group "MEMBER"
      (resourceRoleMembers d "members") s1 kc1 h2
    set s2 := (reconcileMembers (resourceRoleMembers d "members")
      (membersOf "MEMBER" s1) storeAdapter d.group "MEMBER" s1).s with hs2
    obtain ⟨h3, hL3, hs3eq⟩ := createLoop_store_step d.group d "OWNER" "owners" [] s2 hL2
    obtain ⟨ka3, kb3, kc3⟩ := reconcile_store d.group "OWNER"
      (resourceRoleMembers d "owners") s2 kc2 h3
    set s3 := (reconcileMembers (resourceRoleMembers d "owners")
      (membersOf "OWNER" s2) storeAdapter d.group "OWNER" s2).s with hs3
    have hLs : (createLoop storeAdapter d.group d rolesMap s0).s = s3 := by
      have e0 : (createLoop storeAdapter d.group d rolesMap s0).s =
          (createLoop storeAdapter d.group d
            [("MEMBER", "members"), ("OWNER", "owners")] s1).s := by
        simp only [rolesMap]
        exact hs1eq
      rw [e0, hs2eq, hs3eq]
      rfl
    have hdmgr : (resourceGroupMembersCreate d storeAdapter s0).d.managers =
        membersOf "MANAGER" s3 := by
      rw [hu, hLs, read_store]
    have hdmem : (resourceGroupMembersCreate d storeAdapter s0).d.members =
        membersOf "MEMBER" s3 := by
      rw [hu, hLs, read_store]
    have hdown : (resourceGroupMembersCreate d storeAdapter s0).d.owners =
        membersOf "OWNER" s3 := by
      rw [hu, hLs, read_store]
    rw [resourceRoleMembers_managers] at ka1
    rw [resourceRoleMembers_members] at ka2
    rw [resourceRoleMembers_owners] at ka3
    refine ⟨?_, ?_, ?_⟩
    · intro x
      rw [hdmgr, kb3 "MANAGER" (by decide), kb2 "MANAGER" (by decide)]
      exact ka1 x
    · intro x
      rw [hdmem, kb3 "MEMBER" (by decide)]
      exact ka2 x
    · intro x
      rw [hdown]
      exact ka3 x

/-- Witness for C2: desired owners `{o1}`, members `{m1,m2}`, no managers,
starting from a store already holding `m2` as `MEMBER` and an undesired
owner `z`: Create succeeds and the read-back bundle matches the desired
sets. -/
theorem claim2_round_trip_witness :
    ("m1" ∈ (resourceGroupMembersCreate ⟨"", "g", ["o1"], [], ["m1", "m2"]⟩
        storeAdapter [⟨"m2", "MEMBER"⟩, ⟨"z", "OWNER"⟩]).d.members ↔
      "m1" ∈ ["m1", "m2"]) ∧
    ("o1" ∈ (resourceGroupMembersCreate ⟨"", "g", ["o1"], [], ["m1", "m2"]⟩
        storeAdapter [⟨"m2", "MEMBER"⟩, ⟨"z", "OWNER"⟩]).d.owners ↔
      "o1" ∈ ["o1"]) := by
  have h := claim2_round_trip ⟨"", "g", ["o1"], [], ["m1", "m2"]⟩
    [⟨"m2", "MEMBER"⟩, ⟨"z", "OWNER"⟩] (by decide) (by decide)
  exact ⟨h.2.1 "m1", h.2.2 "o1"⟩

end GSuite
